import Mathlib

/-!
Verification of the CertPatrol Orchestrator core against its specification.

This file shallowly embeds the domain classifier (src/manager/classifier.py)
and the process supervisor (src/manager/process_manager.py) in Lean 4 and
proves or refutes the frozen claims about them.

Modelling conventions:
* Python strings are Lean `String`s; the classifier's string manipulation is
  performed on `String.data` (lists of characters) so that every operation is
  executable and kernel-reducible.
* Python `int` is `ℤ` (no overflow in CPython), counts are `ℕ`.
* The floating-point Shannon entropy of the source is modelled over `ℝ` with
  `Real.logb 2`; Python's `int(round(x))` is modelled by Mathlib's `round`
  (the two differ only on exact half-integers, which never arise in the
  concrete instances proved here).
* The third-party `tld` library (`get_tld`) is not part of the repository;
  classify takes the suffix-stripping step as an explicit function parameter,
  and a concrete model of it is provided below for concrete scenarios.
-/

namespace CertPatrol

/-- Python's `needle in hay` substring test, on lists of characters. -/
def subList : List Char → List Char → Bool
  | n, [] => n.isEmpty
  | n, c :: t => n.isPrefixOf (c :: t) || subList n t

/-- Substring test on strings, modelling Python's `in` operator. -/
def subStr (needle hay : String) : Bool := subList needle.data hay.data

/-- Suffix test, modelling Python's `str.endswith`. -/
def suffixB (t n : List Char) : Bool := t.reverse.isPrefixOf n.reverse

/-- Lowercasing, modelling Python's `str.lower` (ASCII range, which covers
every input appearing in the rules and scenarios). -/
def lowerStr (s : String) : String := String.mk (s.data.map Char.toLower)

/-- Whitespace characters removed by Python's `str.strip`. -/
def isSpaceChar (c : Char) : Bool := c = ' ' || c = '\t' || c = '\n' || c = '\r'

/-- Leading/trailing whitespace removal, modelling Python's `str.strip()`. -/
def trimStr (s : String) : String :=
  String.mk (((s.data.dropWhile isSpaceChar).reverse.dropWhile isSpaceChar).reverse)

/-- Characters matched by `\w` in the tokenizing regex `re.split(r"\W+", ...)`. -/
def isWordChar (c : Char) : Bool := c.isAlphanum || c = '_'

/-- Tokenizer accumulator: splits on maximal runs of non-word characters,
dropping empty pieces (`filter(None, re.split(r"\W+", candidate))`). -/
def splitWordsAux : List Char → List Char → List String
  | [], acc => if acc.isEmpty then [] else [String.mk acc.reverse]
  | c :: t, acc =>
    if isWordChar c then splitWordsAux t (c :: acc)
    else if acc.isEmpty then splitWordsAux t []
    else String.mk acc.reverse :: splitWordsAux t []

/-- Tokenize a normalized candidate into words, as `_prepare_domain` does. -/
def splitWords (l : List Char) : List String := splitWordsAux l []

/-- One row update of the Levenshtein dynamic program; mirrors the inner
`for j in range(1, len_b + 1)` loop of `_distance`'s pure-Python fallback
(`src/manager/classifier.py`, lines 300-315).  Arguments: current character
of `a`, remaining characters of `b`, the entry to the left in the new row,
the diagonal entry of the previous row, the remaining previous row. -/
def levRow (a : Char) : List Char → ℕ → ℕ → List ℕ → List ℕ
  | [], _, _, _ => []
  | b :: bs, left, diag, up :: ups =>
    let cur := if a = b then diag else 1 + min diag (min up left)
    cur :: levRow a bs cur up ups
  | _ :: _, _, _, [] => []

/-- Outer loop of the Levenshtein dynamic program (`for i in range(1, len_a + 1)`). -/
def levFold : List Char → List Char → ℕ → List ℕ → List ℕ
  | [], _, _, row => row
  | a :: as, bs, i, row =>
    match row with
    | [] => []
    | p0 :: prest => levFold as bs (i + 1) (i :: levRow a bs i p0 prest)

/-- Levenshtein distance, embedding `_distance`'s dynamic-programming fallback
(the optional C extensions compute the same function, per the module comments
and the spec: "any correct implementation is acceptable"). -/
def levDistance (a b : String) : ℕ :=
  if a = b then 0
  else (levFold a.data b.data 1 (List.range (b.data.length + 1))).getLastD 0

/-- Risk thresholds.  The `Rules` dataclass always carries all four levels
(`DEFAULT_THRESHOLDS` fills any level the document omits). -/
structure Thresholds where
  critical : ℤ
  high : ℤ
  medium : ℤ
  low : ℤ
deriving DecidableEq

/-- The default thresholds `DEFAULT_THRESHOLDS` of the source. -/
def defaultThresholds : Thresholds := ⟨100, 90, 80, 65⟩

/-- In-memory rules (`Rules` dataclass): keyword weights in insertion order,
ordered TLD list, thresholds. -/
structure Rules where
  keywords : List (String × ℤ)
  tlds : List String
  thresholds : Thresholds
deriving DecidableEq

/-- `Rules.strong_keywords`: keywords with weight at least 70. -/
def strongKeywords (r : Rules) : List String :=
  (r.keywords.filter (fun kw => 70 ≤ kw.2)).map (fun kw => kw.1)

/-- Result of scoring one domain (`Classification` dataclass; the `details`
breakdown is not modelled, no claim depends on it beyond the hit order,
which `levHits` captures). -/
structure Classification where
  score : ℤ
  risk : String
  matched_keyword : Option String
  matched_tld : Option String
deriving DecidableEq

/-- `label_score`: map a total score to a risk label, highest threshold
checked first (`src/manager/classifier.py`, lines 252-262). -/
def labelScore (score : ℤ) (t : Thresholds) : String :=
  if t.critical ≤ score then "critical"
  else if t.high ≤ score then "high"
  else if t.medium ≤ score then "medium"
  else if t.low ≤ score then "low"
  else "unknown"

/-- First configured TLD the normalized string ends with (the loop at
lines 134-140 breaks at the first match). -/
def tldOf (r : Rules) (n : String) : Option String :=
  r.tlds.find? (fun t => suffixB t.data n.data)

/-- Score contribution of the TLD loop: +20 for the first match, once. -/
def tldScore (r : Rules) (n : String) : ℤ :=
  if (tldOf r n).isSome then 20 else 0

/-- Benign-prefix bonus: +10 when the first token is com/net/org (lines 149-151). -/
def prefixScore (ws : List String) : ℤ :=
  match ws with
  | [] => 0
  | w :: _ => if w = "com" ∨ w = "net" ∨ w = "org" then 10 else 0

/-- Total weight of every configured keyword occurring as a substring of the
normalized string (the loop at lines 154-163). -/
def kwScore (r : Rules) (n : String) : ℤ :=
  ((r.keywords.filter (fun kw => subStr kw.1 n)).map (fun kw => kw.2)).sum

/-- The matched keyword retained by the substring loop: first hit, then
replaced whenever a strictly heavier hit appears (lines 156-162; the current
weight is re-read through `self.rules.keywords.get(matched_keyword, -1)`). -/
def matchedKwSub (r : Rules) (n : String) : Option String :=
  (r.keywords.filter (fun kw => subStr kw.1 n)).foldl
    (fun acc kw =>
      match acc with
      | none => some kw.1
      | some m => if ((r.keywords.lookup m).getD (-1)) < kw.2 then some kw.1 else acc)
    none

/-- Words not excluded from fuzzy matching (`_levenshtein_hits`, line 243). -/
def relevantWords (ws : List String) : List String :=
  ws.filter (fun w => ¬ (w = "email" ∨ w = "mail" ∨ w = "cloud"))

/-- Fuzzy hits of one word against the strong keywords (inner loop of
`_levenshtein_hits`, lines 245-248). -/
def hitsFor (w : String) (targets : List String) : List (String × String) :=
  targets.filterMap (fun t => if levDistance w t = 1 then some (w, t) else none)

/-- Nested loop of `_levenshtein_hits`: word-major order of (word, target). -/
def levHitsList : List String → List String → List (String × String)
  | [], _ => []
  | w :: ws, ts => hitsFor w ts ++ levHitsList ws ts

/-- `_levenshtein_hits` (lines 238-249): empty when there is no strong
keyword, else every (word, target) pair at distance exactly 1. -/
def levHits (r : Rules) (ws : List String) : List (String × String) :=
  if strongKeywords r = [] then [] else levHitsList (relevantWords ws) (strongKeywords r)

/-- Score contribution of the fuzzy step: `score += 70 * len(strong_hits)`. -/
def fuzzyScore (r : Rules) (ws : List String) : ℤ :=
  70 * (levHits r ws).length

/-- Hyphen bonus (lines 172-176). -/
def hyphenScore (n : String) : ℤ :=
  let hc := n.data.count '-'
  if ¬ (subStr "xn--" n = true) ∧ 4 ≤ hc then (hc : ℤ) * 3 else 0

/-- Subdomain-dot bonus (lines 178-182). -/
def dotScore (n : String) : ℤ :=
  let dc := n.data.count '.'
  if 3 ≤ dc then (dc : ℤ) * 3 else 0

/-- Overall matched keyword: the substring winner, else the target of the
first fuzzy hit (lines 169-170). -/
def matchedKw (r : Rules) (n : String) (ws : List String) : Option String :=
  match matchedKwSub r n with
  | some k => some k
  | none =>
    match levHits r ws with
    | [] => none
    | h :: _ => some h.2

/-- One Shannon-entropy summand: probability `cnt/len` times its base-2 log,
guarded like the `if p > 0` filter of `_entropy_score`. -/
noncomputable def entropyTerm (cnt len : ℕ) : ℝ :=
  if 0 < (cnt : ℝ) / (len : ℝ) then
    ((cnt : ℝ) / (len : ℝ)) * Real.logb 2 ((cnt : ℝ) / (len : ℝ))
  else 0

/-- Character-frequency Shannon entropy over the distinct characters of the
string (`_entropy_score`, lines 231-236; `dict.fromkeys` iterates each
distinct character exactly once, and summation order is immaterial). -/
noncomputable def entropyH (s : String) : ℝ :=
  -(((s.data.dedup).map (fun c => entropyTerm (s.data.count c) s.data.length)).sum)

/-- `_entropy_score`: 0 for the empty string, else `int(round(entropy * 10))`. -/
noncomputable def entropyScore (s : String) : ℤ :=
  if s.data.isEmpty then 0 else round (entropyH s * 10)

/-- Leading wildcard label removal (`candidate.startswith("*.")`). -/
def stripWildcard (l : List Char) : List Char :=
  match l with
  | '*' :: '.' :: t => t
  | _ => l

/-- `_prepare_domain` (lines 205-229): sanity checks, normalization, and
tokenization.  The public-suffix stripping performed by the external `tld`
library is the `strip` parameter (`none` models `get_tld` failing silently,
in which case the candidate is used as-is). -/
def prepareDomain (strip : String → Option String) (domain : String) :
    Option (String × String × List String) :=
  if domain.data.isEmpty then none
  else
    let c0 := stripWildcard ((trimStr domain).data.map Char.toLower)
    if ¬ (c0.contains '.' = true) ∨ c0.contains ' ' = true then none
    else
      let c1 : String :=
        match strip (String.mk c0) with
        | some x => x
        | none => String.mk c0
      let ws := splitWords c1.data
      if ws.isEmpty then none else some (domain, c1, ws)

/-- Body of `classify` after a successful `_prepare_domain` (lines 125-202):
the score is the sum of the step contributions, accumulated in source order. -/
noncomputable def classifyPrepared (r : Rules) (original n : String) (ws : List String) :
    Classification :=
  { score := tldScore r n + entropyScore n + prefixScore ws + kwScore r n
      + fuzzyScore r ws + hyphenScore n + dotScore n
    risk := labelScore (tldScore r n + entropyScore n + prefixScore ws + kwScore r n
      + fuzzyScore r ws + hyphenScore n + dotScore n) r.thresholds
    matched_keyword := matchedKw r n ws
    matched_tld := tldOf r n }

/-- `DomainClassifier.classify` (lines 119-202), parametric in the external
suffix-stripping function. -/
noncomputable def classify (strip : String → Option String) (r : Rules) (domain : String) :
    Classification :=
  match prepareDomain strip domain with
  | none => { score := 0, risk := "unknown", matched_keyword := none, matched_tld := none }
  | some (o, n, ws) => classifyPrepared r o n ws

/-- Modelled from the spec: the repository calls the external `tld` library
(`get_tld(candidate, as_object=True, fail_silently=True, fix_protocol=True)`),
which is not part of the repository; per the spec it performs
"public-suffix-aware stripping of the registered domain+suffix, retaining
only the subdomain + domain labels for scoring (on parse failure, use the
string as-is)".  This model strips a trailing `.tk` or `.com` registered
suffix (both are public suffixes) and fails on anything else. -/
def tldStripModel (c : String) : Option String :=
  (["tk", "com"].find? (fun t => suffixB ('.' :: t.data) c.data)).map
    (fun t => String.mk (c.data.take (c.data.length - (t.data.length + 1))))

/-- A strip function modelling `get_tld` failing silently on every input
(e.g. an unknown suffix): the candidate is kept as-is. -/
def noStrip : String → Option String := fun _ => none

/-- The early-rejection predicate of `_prepare_domain`: empty input, no dot,
or a space character in the candidate (after trimming, lowercasing, and
wildcard stripping). -/
def earlyRejected (d : String) : Bool :=
  let c := stripWildcard ((trimStr d).data.map Char.toLower)
  d.data.isEmpty || !(c.contains '.') || c.contains ' '

/-- The RuleSet of the critical scenario (C3). -/
def scenarioRules : Rules := ⟨[("login", 80)], ["tk"], ⟨100, 90, 80, 65⟩⟩

/-- A RuleSet with no keywords and no TLDs. -/
def emptyRules : Rules := ⟨[], [], defaultThresholds⟩

/-- A RuleSet carrying a negative keyword weight (nothing in the loader or the
`Rules` dataclass forbids it). -/
def negWeightRules : Rules := ⟨[("a", -1000000)], [], defaultThresholds⟩

/-- A RuleSet whose `low` threshold is 0. -/
def lowZeroRules : Rules := ⟨[], [], ⟨100, 90, 80, 0⟩⟩

/-- A RuleSet with two strong keywords (for the +140 double-hit scenario). -/
def twoHitRules : Rules := ⟨[("verify", 70), ("login", 80)], [], defaultThresholds⟩

/-- A RuleSet whose ordered TLD list has several entries matching as a suffix. -/
def multiTldRules : Rules := ⟨[], ["net", "er", "r"], defaultThresholds⟩

/-- A RuleSet with one strong keyword, for the fuzzy-fallback scenario. -/
def fuzzyRules : Rules := ⟨[("login", 80)], [], defaultThresholds⟩

/-- All (token, strong keyword) pairs, in the nested-loop order of
`_levenshtein_hits`; the spec-side counting device for the fuzzy bonus. -/
def allPairs : List String → List String → List (String × String)
  | [], _ => []
  | w :: ws, ts => ts.map (fun t => (w, t)) ++ allPairs ws ts

/-- Number of (token, strong keyword) pairs at Levenshtein distance exactly 1,
tokens restricted as in the source. -/
def nearMissPairs (r : Rules) (ws : List String) : ℕ :=
  List.countP (fun q => levDistance q.1 q.2 = 1) (allPairs (relevantWords ws) (strongKeywords r))

/-! ### Process supervision model (src/manager/process_manager.py)

The registry lock serializes every mutating supervisor operation, and the
`start_search` alive-count read and insert happen inside one `with self.lock`
block, so the concurrent system is modelled as a sequential sequence of atomic
operations on the registry state.  OS-level effects (spawn success, stop
outcome, asynchronous process death) are explicit parameters of the steps. -/

/-- Launch parameters of a `SearchProcess` (constructor arguments; the float
parameters are modelled as rationals, no arithmetic is done on them). -/
structure LaunchParams where
  pattern : String
  ct_logs : Option String
  batch_size : ℕ
  poll_sleep : ℚ
  min_poll_sleep : ℚ
  max_poll_sleep : ℚ
  max_memory_mb : ℕ
  etld1 : Bool
  verbose : Bool
  quiet_warnings : Bool
  quiet_parse_errors : Bool
  debug_all : Bool
  checkpoint_tag : Option String
deriving DecidableEq

/-- The OS process behind a `SearchProcess` (`self.process`): pid and
whether `poll()` currently returns `None`. -/
structure ProcInfo where
  pid : ℕ
  alive : Bool
deriving DecidableEq

/-- A `SearchProcess`: id, launch parameters, the optional spawned OS process,
and the soft `running` flag. -/
structure SearchProcessM where
  search_id : ℕ
  params : LaunchParams
  process : Option ProcInfo
  running : Bool
deriving DecidableEq

/-- `SearchProcess.is_alive` (lines 138-142): `False` without a process,
else whether `poll()` is `None`. -/
def isAliveM (p : SearchProcessM) : Bool :=
  match p.process with
  | none => false
  | some pr => pr.alive

/-- Outcome of the `subprocess.Popen` call, an OS-level input. -/
inductive SpawnOutcome where
  | ok (pid : ℕ)
  | fail (msg : String)
deriving DecidableEq

/-- Outcome of the termination sequence in `SearchProcess.stop`, an OS-level
input: graceful SIGTERM exit, forced kill after the 10 s grace period, or an
unexpected OS error raised while signalling/waiting. -/
inductive StopOutcome where
  | graceful
  | timeoutKill
  | osError (msg : String)
deriving DecidableEq

/-- A status update sent to the persistence collaborator
(`db.update_search_status(search_id, status, pid)`). -/
structure StatusUpd where
  status : String
  pid : Option ℕ
deriving DecidableEq

/-- `SearchProcess.start` (lines 46-113): `False` if already running; else
spawn, mark running, record the pid, start the reader; on spawn failure report
`crashed` and raise.  Returns the updated handle, the status updates emitted,
and the Python return/raise as `Except`. -/
def startM (p : SearchProcessM) (sp : SpawnOutcome) :
    SearchProcessM × List StatusUpd × Except String Bool :=
  if p.running then (p, [], Except.ok false)
  else
    match sp with
    | SpawnOutcome.ok pid =>
      ({ p with process := some ⟨pid, true⟩, running := true },
       [⟨"running", some pid⟩], Except.ok true)
    | SpawnOutcome.fail msg =>
      (p, [⟨"crashed", none⟩], Except.error ("Failed to start process: " ++ msg))

/-- `SearchProcess.stop` (lines 115-136): `False` when not running or no
process; else SIGTERM, wait (kill on timeout), clear `running`, report
`stopped`; an unexpected OS error raises before any state change. -/
def stopM (p : SearchProcessM) (o : StopOutcome) :
    SearchProcessM × List StatusUpd × Except String Bool :=
  if ¬ (p.running = true) ∨ p.process = none then (p, [], Except.ok false)
  else
    match o with
    | StopOutcome.osError msg => (p, [], Except.error ("Failed to stop process: " ++ msg))
    | StopOutcome.graceful =>
      ({ p with
          running := false
          process := p.process.map (fun pr => { pr with alive := false }) },
       [⟨"stopped", none⟩], Except.ok true)
    | StopOutcome.timeoutKill =>
      ({ p with
          running := false
          process := p.process.map (fun pr => { pr with alive := false }) },
       [⟨"stopped", none⟩], Except.ok true)

/-- Registry of the `ProcessManager`: id-keyed association list, modelling the
insertion-ordered Python dict `self.processes`. -/
abbrev MgrState : Type := List (ℕ × SearchProcessM)

/-- Python dict assignment `self.processes[sid] = p`: replace the (unique)
entry in place, else append. -/
def setEntry : MgrState → ℕ → SearchProcessM → MgrState
  | [], k, v => [(k, v)]
  | e :: t, k, v => if e.1 = k then (k, v) :: t else e :: setEntry t k v

/-- Python dict deletion `del self.processes[sid]`. -/
def delEntry : MgrState → ℕ → MgrState
  | [], _ => []
  | e :: t, k => if e.1 = k then t else e :: delEntry t k

/-- `search_id in self.processes and self.processes[search_id].is_alive()`. -/
def aliveInRegistry (s : MgrState) (sid : ℕ) : Bool :=
  match s.find? (fun e => e.1 = sid) with
  | none => false
  | some e => isAliveM e.2

/-- `sum(1 for p in self.processes.values() if p.is_alive())`. -/
def aliveCount (s : MgrState) : ℕ :=
  List.countP (fun e => isAliveM e.2) s

/-- Result of `ProcessManager.start_search`. -/
inductive StartRes where
  | started (b : Bool)
  | errCapacity
  | errNotFound
  | errSpawn (msg : String)
deriving DecidableEq

/-- `ProcessManager.start_search` (lines 218-255), one atomic step under the
registry lock: already-running check, alive-count capacity check, database
lookup, construct-and-start, insert.  `dbp` is the launch configuration the
database returns (`none` when the search id is unknown) and `sp` the spawn
outcome. -/
def startSearch (maxConc : ℕ) (s : MgrState) (sid : ℕ)
    (dbp : Option LaunchParams) (sp : SpawnOutcome) : StartRes × MgrState :=
  if aliveInRegistry s sid then (StartRes.started false, s)
  else if maxConc ≤ aliveCount s then (StartRes.errCapacity, s)
  else
    match dbp with
    | none => (StartRes.errNotFound, s)
    | some params =>
      let fresh : SearchProcessM :=
        { search_id := sid, params := params, process := none, running := false }
      match startM fresh sp with
      | (_, _, Except.error msg) => (StartRes.errSpawn msg, s)
      | (p1, _, Except.ok _) => (StartRes.started true, setEntry s sid p1)

/-- `ProcessManager.stop_search` (lines 257-270): unknown id gives `False`;
else stop the handle (an OS error propagates, removing nothing) and evict the
entry once `is_alive()` is observed false.  Also returns the list of removed
(id, handle-at-removal) pairs. -/
def stopSearch (s : MgrState) (sid : ℕ) (o : StopOutcome) :
    Except String Bool × MgrState × List (ℕ × SearchProcessM) :=
  match s.find? (fun e => e.1 = sid) with
  | none => (Except.ok false, s, [])
  | some e =>
    match stopM e.2 o with
    | (_, _, Except.error msg) => (Except.error msg, s, [])
    | (p1, _, Except.ok b) =>
      let s1 := setEntry s sid p1
      if isAliveM p1 then (Except.ok b, s1, [])
      else (Except.ok b, delEntry s1 sid, [(sid, p1)])

/-- `ProcessManager.cleanup_dead_processes` (lines 302-307): evict every entry
whose process is observed dead.  Returns the new state and the removed pairs. -/
def cleanupDead (s : MgrState) : MgrState × List (ℕ × SearchProcessM) :=
  (s.filter (fun e => isAliveM e.2), s.filter (fun e => ¬ (isAliveM e.2 = true)))

/-- `ProcessManager.stop_all` (lines 309-318): best-effort `stop()` on every
handle, swallowing errors, then `self.processes.clear()`.  Returns the empty
registry and the removed pairs with their post-stop handle states. -/
def stopAllM (s : MgrState) (o : ℕ → StopOutcome) :
    MgrState × List (ℕ × SearchProcessM) :=
  ([], s.map (fun e => (e.1, (stopM e.2 (o e.1)).1)))

/-- Asynchronous death of a tracked OS process (an environment event, not a
registry operation): `poll()` starts returning an exit code. -/
def dieAt (s : MgrState) (sid : ℕ) : MgrState :=
  s.map (fun e =>
    if e.1 = sid then (e.1, { e.2 with process := e.2.process.map (fun pr => { pr with alive := false }) })
    else e)

/-- One atomic supervisor step (the registry lock serializes them), or an
environment event. -/
inductive MStep where
  | start (sid : ℕ) (dbp : Option LaunchParams) (sp : SpawnOutcome)
  | stop (sid : ℕ) (o : StopOutcome)
  | sweep
  | stopAll (o : ℕ → StopOutcome)
  | die (sid : ℕ)

/-- Apply one step to the registry. -/
def applyStep (maxConc : ℕ) (s : MgrState) : MStep → MgrState
  | MStep.start sid dbp sp => (startSearch maxConc s sid dbp sp).2
  | MStep.stop sid o => (stopSearch s sid o).2.1
  | MStep.sweep => (cleanupDead s).1
  | MStep.stopAll o => (stopAllM s o).1
  | MStep.die sid => dieAt s sid

/-- Run a sequence of steps from the empty registry. -/
def runTrace (maxConc : ℕ) (tr : List MStep) : MgrState :=
  tr.foldl (applyStep maxConc) []

/-! ### Output reader model (SearchProcess._read_output, lines 144-208) -/

/-- The fixed list of non-domain status markers skipped by the reader. -/
def skipPatterns : List String :=
  ["Checkpoints saved", "Received SIGTERM", "Graceful shutdown", "shutdown",
   "Tailing logs", "Pattern:", "Batch size:", "initiating"]

/-- The reader's per-line filter: non-empty after trimming, no status marker
(case-insensitively), at least one dot, no space. -/
def lineAccepted (line : String) : Bool :=
  let d := trimStr line
  !d.data.isEmpty &&
    !(skipPatterns.any (fun pat => subStr (lowerStr pat) (lowerStr d))) &&
    d.data.contains '.' && !(d.data.contains ' ')

/-- Observable events of the reader loop: the classification-error log line
and the `db.add_result` delivery (with the exact argument pattern of
lines 184-193: each field is `None` when classification failed). -/
inductive REvent where
  | classifyError (domain msg : String)
  | saved (sid : ℕ) (domain : String) (score : Option ℤ) (risk : Option String)
      (mkw : Option String) (mtld : Option String) (record : Option Classification)
deriving DecidableEq

/-- The reader loop over the lines of stdout, parametric in the classifier
call (`self.classifier.classify`), which may raise.  The `running`-flag break
and the end-of-stream status update concern stream shutdown and are outside
the per-line behaviour modelled here. -/
def readOutput (sid : ℕ) (cls : String → Except String Classification) :
    List String → List REvent
  | [] => []
  | line :: rest =>
    let d := trimStr line
    if d.data.isEmpty then readOutput sid cls rest
    else if skipPatterns.any (fun pat => subStr (lowerStr pat) (lowerStr d)) then
      readOutput sid cls rest
    else if ¬ (d.data.contains '.' = true) ∨ d.data.contains ' ' = true then
      readOutput sid cls rest
    else
      match cls d with
      | Except.error msg =>
        REvent.classifyError d msg :: REvent.saved sid d none none none none none ::
          readOutput sid cls rest
      | Except.ok c =>
        REvent.saved sid d (some c.score) (some c.risk) c.matched_keyword c.matched_tld
          (some c) :: readOutput sid cls rest


/-- Launch parameters used by the concrete supervisor scenarios. -/
def demoParams : LaunchParams :=
  ⟨"phish", none, 256, 3, 1, 60, 100, false, false, true, false, false, none⟩

/-- A tracked handle whose OS process is alive. -/
def aliveHandle : SearchProcessM := ⟨1, demoParams, some ⟨100, true⟩, true⟩

/-- A second tracked handle whose OS process is alive. -/
def aliveHandle2 : SearchProcessM := ⟨2, demoParams, some ⟨200, true⟩, true⟩

/-- A tracked handle whose OS process has died. -/
def deadHandle : SearchProcessM := ⟨1, demoParams, some ⟨99, false⟩, false⟩

/-- A classifier call that raises on every input (for the reader-loop
error-handling scenario). -/
def boomClassifier : String → Except String Classification := fun _ => Except.error "boom"

/-! ### Entropy lemmas -/

theorem list_sum_nonpos {l : List ℝ} (h : ∀ x ∈ l, x ≤ 0) : l.sum ≤ 0 := by
  induction l with
  | nil => simp
  | cons a t ih =>
    simp only [List.sum_cons]
    have ha := h a (by simp)
    have ht := ih (fun x hx => h x (by simp [hx]))
    linarith

theorem entropyTerm_nonpos {c l : ℕ} (h : c ≤ l) : entropyTerm c l ≤ 0 := by
  rw [entropyTerm]
  split_ifs with hp
  · have hl0 : 0 < l := by
      by_contra hl
      have : l = 0 := by omega
      simp [this] at hp
    have h1 : (c : ℝ) / (l : ℝ) ≤ 1 := by
      rw [div_le_one (by exact_mod_cast hl0)]
      exact_mod_cast h
    have hlog : Real.logb 2 ((c : ℝ) / (l : ℝ)) ≤ 0 :=
      Real.logb_nonpos (by norm_num) (le_of_lt hp) h1
    exact mul_nonpos_of_nonneg_of_nonpos (le_of_lt hp) hlog
  · exact le_refl 0

theorem entropyH_nonneg (s : String) : 0 ≤ entropyH s := by
  rw [entropyH, neg_nonneg]
  refine list_sum_nonpos ?_
  intro x hx
  simp only [List.mem_map] at hx
  obtain ⟨c, _, rfl⟩ := hx
  exact entropyTerm_nonpos (List.count_le_length c s.data)

theorem entropyScore_nonneg (s : String) : 0 ≤ entropyScore s := by
  rw [entropyScore]
  split_ifs with h
  · exact le_refl 0
  · rw [round_eq]
    refine Int.le_floor.mpr ?_
    have := entropyH_nonneg s
    push_cast
    linarith

theorem round_ge_of {z : ℤ} {x : ℝ} (h : (z : ℝ) ≤ x + 1 / 2) : z ≤ round x := by
  rw [round_eq]
  exact Int.le_floor.mpr h

theorem round_le_of {z : ℤ} {x : ℝ} (h : x < (z : ℝ) + 1 / 2) : round x ≤ z := by
  rw [round_eq]
  have h1 : (⌊x + 1 / 2⌋ : ℝ) ≤ x + 1 / 2 := Int.floor_le _
  have h2 : (⌊x + 1 / 2⌋ : ℝ) < (z : ℝ) + 1 := by linarith
  have h3 : ⌊x + 1 / 2⌋ < z + 1 := by exact_mod_cast h2
  omega

theorem entropyTerm_eval {c l : ℕ} (hc : 0 < c) (hl : 0 < l) :
    entropyTerm c l = (c : ℝ) / (l : ℝ) * (Real.logb 2 (c : ℝ) - Real.logb 2 (l : ℝ)) := by
  have hc' : (0 : ℝ) < (c : ℝ) := by exact_mod_cast hc
  have hl' : (0 : ℝ) < (l : ℝ) := by exact_mod_cast hl
  have hp : 0 < (c : ℝ) / (l : ℝ) := div_pos hc' hl'
  rw [entropyTerm, if_pos hp, Real.logb_div (ne_of_gt hc') (ne_of_gt hl')]

theorem entropyH_pairs (s : String) (l : List (ℕ × ℕ))
    (h : s.data.dedup.map (fun c => (s.data.count c, s.data.length)) = l) :
    entropyH s = -((l.map (fun q => entropyTerm q.1 q.2)).sum) := by
  rw [entropyH, ← h, List.map_map]
  rfl

theorem logb_two_seventeen_ge : (4 : ℝ) ≤ Real.logb 2 17 := by
  rw [Real.le_logb_iff_rpow_le (by norm_num) (by norm_num)]
  rw [show ((4 : ℝ)) = ((4 : ℕ) : ℝ) by norm_num, Real.rpow_natCast]
  norm_num

theorem logb_two_three_ge : (1 : ℝ) ≤ Real.logb 2 3 := by
  rw [Real.le_logb_iff_rpow_le (by norm_num) (by norm_num)]
  rw [show ((1 : ℝ)) = ((1 : ℕ) : ℝ) by norm_num, Real.rpow_natCast]
  norm_num

theorem logb_two_three_le : Real.logb 2 3 ≤ 2 := by
  rw [Real.logb_le_iff_le_rpow (by norm_num) (by norm_num)]
  rw [show ((2 : ℝ)) = ((2 : ℕ) : ℝ) by norm_num, Real.rpow_natCast]
  norm_num

/-- Entropy of the normalized string of the critical scenario: at least 2 bits
(13 characters of count 1 and two of count 2 over length 17 give
`logb 2 17 - 4 / 17`, and `logb 2 17 ≥ 4`). -/
theorem entropyH_secure_ge : (2 : ℝ) ≤ entropyH "secure-login.bank" := by
  have hpairs : "secure-login.bank".data.dedup.map
      (fun c => ("secure-login.bank".data.count c, "secure-login.bank".data.length)) =
      [(1, 17), (1, 17), (1, 17), (1, 17), (2, 17), (1, 17), (1, 17), (1, 17), (1, 17),
       (1, 17), (1, 17), (1, 17), (1, 17), (2, 17), (1, 17)] := by decide
  rw [entropyH_pairs _ _ hpairs]
  have h1 : entropyTerm 1 17 = (1 : ℝ) / 17 * (Real.logb 2 1 - Real.logb 2 17) := by
    have := entropyTerm_eval (c := 1) (l := 17) (by norm_num) (by norm_num)
    simpa using this
  have h2 : entropyTerm 2 17 = (2 : ℝ) / 17 * (Real.logb 2 2 - Real.logb 2 17) := by
    have := entropyTerm_eval (c := 2) (l := 17) (by norm_num) (by norm_num)
    simpa using this
  have hlog2 : Real.logb 2 2 = 1 := by
    simp [Real.logb_self_eq_one]
  simp only [List.map_cons, List.map_nil, List.sum_cons, List.sum_nil, h1, h2,
    Real.logb_one, hlog2]
  have hL := logb_two_seventeen_ge
  nlinarith [hL]

/-- The entropy score of the critical scenario's normalized string is ≥ 20. -/
theorem entropyScore_secure_ge : (20 : ℤ) ≤ entropyScore "secure-login.bank" := by
  rw [entropyScore, if_neg (by decide)]
  refine round_ge_of ?_
  have := entropyH_secure_ge
  push_cast
  linarith

/-- Entropy upper bound for the string used in the negative-weight
counterexample: `entropyH "a.a" = logb 2 3 - 2/3 ≤ 2`. -/
theorem entropyH_aa_le : entropyH "a.a" ≤ 2 := by
  have hpairs : "a.a".data.dedup.map
      (fun c => ("a.a".data.count c, "a.a".data.length)) = [(1, 3), (2, 3)] := by decide
  rw [entropyH_pairs _ _ hpairs]
  have h1 : entropyTerm 1 3 = (1 : ℝ) / 3 * (Real.logb 2 1 - Real.logb 2 3) := by
    have := entropyTerm_eval (c := 1) (l := 3) (by norm_num) (by norm_num)
    simpa using this
  have h2 : entropyTerm 2 3 = (2 : ℝ) / 3 * (Real.logb 2 2 - Real.logb 2 3) := by
    have := entropyTerm_eval (c := 2) (l := 3) (by norm_num) (by norm_num)
    simpa using this
  have hlog2 : Real.logb 2 2 = 1 := by
    simp [Real.logb_self_eq_one]
  simp only [List.map_cons, List.map_nil, List.sum_cons, List.sum_nil, h1, h2,
    Real.logb_one, hlog2]
  have hL := logb_two_three_le
  have hL' := logb_two_three_ge
  nlinarith [hL, hL']

theorem entropyScore_aa_le : entropyScore "a.a" ≤ 20 := by
  rw [entropyScore, if_neg (by decide)]
  refine round_le_of ?_
  have := entropyH_aa_le
  push_cast
  linarith

/-- Entropy lower bound for the tab counterexample: three distinct characters,
so the entropy is exactly `logb 2 3 ≥ 1`. -/
theorem entropyH_atb_ge : (1 : ℝ) ≤ entropyH "a\tb" := by
  have hpairs : "a\tb".data.dedup.map
      (fun c => ("a\tb".data.count c, "a\tb".data.length)) = [(1, 3), (1, 3), (1, 3)] := by
    decide
  rw [entropyH_pairs _ _ hpairs]
  have h1 : entropyTerm 1 3 = (1 : ℝ) / 3 * (Real.logb 2 1 - Real.logb 2 3) := by
    have := entropyTerm_eval (c := 1) (l := 3) (by norm_num) (by norm_num)
    simpa using this
  simp only [List.map_cons, List.map_nil, List.sum_cons, List.sum_nil, h1, Real.logb_one]
  have hL := logb_two_three_ge
  nlinarith [hL]

theorem entropyScore_atb_ge : (1 : ℤ) ≤ entropyScore "a\tb" := by
  rw [entropyScore, if_neg (by decide)]
  refine round_ge_of ?_
  have := entropyH_atb_ge
  push_cast
  linarith

/-! ### Classifier lemmas -/

theorem classify_none (strip : String → Option String) (r : Rules) (d : String)
    (hp : prepareDomain strip d = none) :
    classify strip r d =
      { score := 0, risk := "unknown", matched_keyword := none, matched_tld := none } := by
  unfold classify
  simp only [hp]

theorem classify_some (strip : String → Option String) (r : Rules) (d o n : String)
    (ws : List String) (hp : prepareDomain strip d = some (o, n, ws)) :
    classify strip r d = classifyPrepared r o n ws := by
  unfold classify
  simp only [hp]

theorem classifyPrepared_score (r : Rules) (o n : String) (ws : List String) :
    (classifyPrepared r o n ws).score = tldScore r n + entropyScore n + prefixScore ws
      + kwScore r n + fuzzyScore r ws + hyphenScore n + dotScore n := rfl

theorem classifyPrepared_risk (r : Rules) (o n : String) (ws : List String) :
    (classifyPrepared r o n ws).risk =
      labelScore (classifyPrepared r o n ws).score r.thresholds := rfl

theorem classifyPrepared_mkw (r : Rules) (o n : String) (ws : List String) :
    (classifyPrepared r o n ws).matched_keyword = matchedKw r n ws := rfl

theorem classifyPrepared_mtld (r : Rules) (o n : String) (ws : List String) :
    (classifyPrepared r o n ws).matched_tld = tldOf r n := rfl

/-- The five mutually exclusive outcomes of `label_score`, characterized as
"the highest threshold tier whose threshold the score meets". -/
theorem labelScore_iffs (score : ℤ) (t : Thresholds) :
    (labelScore score t = "critical" ↔ t.critical ≤ score) ∧
    (labelScore score t = "high" ↔ t.high ≤ score ∧ score < t.critical) ∧
    (labelScore score t = "medium" ↔ t.medium ≤ score ∧ score < t.critical ∧ score < t.high) ∧
    (labelScore score t = "low" ↔
      t.low ≤ score ∧ score < t.critical ∧ score < t.high ∧ score < t.medium) ∧
    (labelScore score t = "unknown" ↔
      score < t.critical ∧ score < t.high ∧ score < t.medium ∧ score < t.low) := by
  unfold labelScore
  split_ifs with h1 h2 h3 h4 <;> refine ⟨?_, ?_, ?_, ?_, ?_⟩ <;> simp <;> omega

theorem tldScore_nonneg (r : Rules) (n : String) : 0 ≤ tldScore r n := by
  rw [tldScore]
  split_ifs <;> omega

theorem prefixScore_nonneg (ws : List String) : 0 ≤ prefixScore ws := by
  cases ws with
  | nil => exact le_refl 0
  | cons w t =>
    rw [show prefixScore (w :: t) = if w = "com" ∨ w = "net" ∨ w = "org" then 10 else 0
      from rfl]
    split_ifs <;> omega

theorem kwScore_nonneg (r : Rules) (n : String)
    (h : ∀ kw ∈ r.keywords, (0 : ℤ) ≤ kw.2) : 0 ≤ kwScore r n := by
  rw [kwScore]
  refine List.sum_nonneg ?_
  intro x hx
  simp only [List.mem_map] at hx
  obtain ⟨kw, hkw, rfl⟩ := hx
  exact h kw (List.mem_of_mem_filter hkw)

theorem fuzzyScore_nonneg (r : Rules) (ws : List String) : 0 ≤ fuzzyScore r ws := by
  rw [fuzzyScore]
  positivity

theorem hyphenScore_nonneg (n : String) : 0 ≤ hyphenScore n := by
  rw [hyphenScore]
  split_ifs <;> positivity

theorem dotScore_nonneg (n : String) : 0 ≤ dotScore n := by
  rw [dotScore]
  split_ifs <;> positivity

theorem classifyPrepared_score_nonneg (r : Rules) (o n : String) (ws : List String)
    (h : ∀ kw ∈ r.keywords, (0 : ℤ) ≤ kw.2) : 0 ≤ (classifyPrepared r o n ws).score := by
  rw [classifyPrepared_score]
  have h1 := tldScore_nonneg r n
  have h2 := entropyScore_nonneg n
  have h3 := prefixScore_nonneg ws
  have h4 := kwScore_nonneg r n h
  have h5 := fuzzyScore_nonneg r ws
  have h6 := hyphenScore_nonneg n
  have h7 := dotScore_nonneg n
  linarith

theorem hitsFor_length (w : String) (ts : List String) :
    (hitsFor w ts).length =
      List.countP (fun q => levDistance q.1 q.2 = 1) (ts.map (fun t => (w, t))) := by
  induction ts with
  | nil => rfl
  | cons t ts ih =>
    by_cases h : levDistance w t = 1 <;>
      simp [hitsFor, List.filterMap_cons, List.countP_cons, h] at ih ⊢ <;>
        omega

theorem allPairs_nil (ws : List String) : allPairs ws [] = [] := by
  induction ws with
  | nil => rfl
  | cons w t ih => simp [allPairs, ih]

theorem levHitsList_length (ws ts : List String) :
    (levHitsList ws ts).length =
      List.countP (fun q => levDistance q.1 q.2 = 1) (allPairs ws ts) := by
  induction ws with
  | nil => rfl
  | cons w ws ih =>
    rw [show levHitsList (w :: ws) ts = hitsFor w ts ++ levHitsList ws ts from rfl,
      show allPairs (w :: ws) ts = ts.map (fun t => (w, t)) ++ allPairs ws ts from rfl,
      List.length_append, List.countP_append, hitsFor_length, ih]

theorem levHits_length (r : Rules) (ws : List String) :
    (levHits r ws).length = nearMissPairs r ws := by
  rw [levHits, nearMissPairs]
  split_ifs with h
  · rw [h, allPairs_nil]
    rfl
  · exact levHitsList_length _ _

theorem levHitsList_mem_right (ws ts : List String) (w t : String)
    (h : (w, t) ∈ levHitsList ws ts) : t ∈ ts := by
  induction ws with
  | nil => simp [levHitsList] at h
  | cons w0 ws ih =>
    rw [show levHitsList (w0 :: ws) ts = hitsFor w0 ts ++ levHitsList ws ts from rfl] at h
    rcases List.mem_append.mp h with h1 | h2
    · rw [hitsFor] at h1
      simp only [List.mem_filterMap] at h1
      obtain ⟨tt, htt, hif⟩ := h1
      by_cases hd : levDistance w0 tt = 1
      · rw [if_pos hd] at hif
        injection hif with hpair
        injection hpair with hw ht
        subst ht
        exact htt
      · rw [if_neg hd] at hif
        exact absurd hif (by simp)
    · exact ih h2

theorem find?_first {α : Type} (p : α → Bool) (l1 l2 : List α) (a : α)
    (hmiss : l1.all (fun x => !(p x)) = true) (ha : p a = true) :
    (l1 ++ a :: l2).find? p = some a := by
  induction l1 with
  | nil => simp [List.find?, ha]
  | cons x t ih =>
    simp only [List.all_cons, Bool.and_eq_true, Bool.not_eq_true'] at hmiss
    rw [List.cons_append, List.find?_cons_of_neg _ (by simp [hmiss.1])]
    exact ih (by simpa using hmiss.2)

/-! ### Supervisor registry lemmas -/

theorem aliveCount_cons (e : ℕ × SearchProcessM) (t : List (ℕ × SearchProcessM)) :
    aliveCount (e :: t) = aliveCount t + (if isAliveM e.2 then 1 else 0) := by
  simp [aliveCount, List.countP_cons]

theorem aliveCount_setEntry_le (s : MgrState) (k : ℕ) (p : SearchProcessM) :
    aliveCount (setEntry s k p) ≤ aliveCount s + 1 := by
  induction s with
  | nil =>
    rw [show setEntry [] k p = [(k, p)] from rfl, aliveCount_cons]
    simp only [aliveCount, List.countP_nil]
    split_ifs <;> omega
  | cons e t ih =>
    rw [show setEntry (e :: t) k p = if e.1 = k then (k, p) :: t else e :: setEntry t k p
      from rfl]
    split_ifs with h
    · rw [aliveCount_cons, aliveCount_cons]
      split_ifs <;> omega
    · rw [aliveCount_cons, aliveCount_cons]
      have := ih
      split_ifs <;> omega

theorem aliveCount_setEntry_dead (s : MgrState) (k : ℕ) (p : SearchProcessM)
    (hp : isAliveM p = false) : aliveCount (setEntry s k p) ≤ aliveCount s := by
  induction s with
  | nil =>
    rw [show setEntry [] k p = [(k, p)] from rfl, aliveCount_cons]
    simp [aliveCount, hp]
  | cons e t ih =>
    rw [show setEntry (e :: t) k p = if e.1 = k then (k, p) :: t else e :: setEntry t k p
      from rfl]
    split_ifs with h
    · rw [aliveCount_cons, aliveCount_cons]
      simp only [hp, Bool.false_eq_true, if_false]
      split_ifs <;> omega
    · rw [aliveCount_cons, aliveCount_cons]
      have := ih
      split_ifs <;> omega

theorem setEntry_self (s : MgrState) (k : ℕ) (v : ℕ × SearchProcessM)
    (h : s.find? (fun e => e.1 = k) = some v) : setEntry s k v.2 = s := by
  induction s with
  | nil => simp [List.find?] at h
  | cons e t ih =>
    by_cases he : e.1 = k
    · rw [List.find?_cons_of_pos _ (by simp [he])] at h
      have hv : v = e := by
        injection h with h'
        exact h'.symm
      subst hv
      simp only [setEntry, if_pos he]
      have : (k, v.2) = v := by
        cases v
        simp only at he ⊢
        simp [he]
      rw [this]
    · rw [List.find?_cons_of_neg _ (by simp [he])] at h
      simp only [setEntry, if_neg he]
      rw [ih h]

theorem aliveCount_delEntry_le (s : MgrState) (k : ℕ) :
    aliveCount (delEntry s k) ≤ aliveCount s := by
  induction s with
  | nil => simp [delEntry]
  | cons e t ih =>
    rw [show delEntry (e :: t) k = if e.1 = k then t else e :: delEntry t k from rfl]
    split_ifs with h
    · rw [aliveCount_cons]
      omega
    · rw [aliveCount_cons, aliveCount_cons]
      have := ih
      split_ifs <;> omega

theorem aliveCount_filter_le (s : MgrState) (f : ℕ × SearchProcessM → Bool) :
    aliveCount (s.filter f) ≤ aliveCount s :=
  List.Sublist.countP_le _ (List.filter_sublist s)

theorem aliveCount_dieAt_le (s : MgrState) (sid : ℕ) :
    aliveCount (dieAt s sid) ≤ aliveCount s := by
  induction s with
  | nil => simp [dieAt, aliveCount]
  | cons e t ih =>
    rw [show dieAt (e :: t) sid =
      (if e.1 = sid then
        (e.1, { e.2 with process := e.2.process.map (fun pr => { pr with alive := false }) })
       else e) :: dieAt t sid from rfl]
    rw [aliveCount_cons, aliveCount_cons]
    by_cases h : e.1 = sid
    · have hdead : isAliveM
          { e.2 with process := e.2.process.map (fun pr => { pr with alive := false }) } = false := by
        cases hpr : e.2.process <;> simp [isAliveM, hpr]
      simp only [if_pos h, hdead, Bool.false_eq_true, if_false]
      have := ih
      split_ifs <;> omega
    · simp only [if_neg h]
      have := ih
      split_ifs <;> omega

/-- A handle returned by `stopM` with `Except.ok` is either unchanged or has a
dead process. -/
theorem stopM_ok_cases (p : SearchProcessM) (o : StopOutcome) (p1 : SearchProcessM)
    (upd : List StatusUpd) (b : Bool) (hst : stopM p o = (p1, upd, Except.ok b)) :
    p1 = p ∨ isAliveM p1 = false := by
  cases o with
  | osError msg =>
    rw [stopM] at hst
    split_ifs at hst with hcond
    · left
      simp only [Prod.mk.injEq] at hst
      exact hst.1.symm
    · simp at hst
  | graceful =>
    rw [stopM] at hst
    split_ifs at hst with hcond
    · left
      simp only [Prod.mk.injEq] at hst
      exact hst.1.symm
    · simp only [Prod.mk.injEq] at hst
      right
      rw [← hst.1]
      cases hpr : p.process <;> simp [isAliveM, hpr]
  | timeoutKill =>
    rw [stopM] at hst
    split_ifs at hst with hcond
    · left
      simp only [Prod.mk.injEq] at hst
      exact hst.1.symm
    · simp only [Prod.mk.injEq] at hst
      right
      rw [← hst.1]
      cases hpr : p.process <;> simp [isAliveM, hpr]

theorem aliveCount_startSearch_le (maxConc : ℕ) (s : MgrState) (sid : ℕ)
    (dbp : Option LaunchParams) (sp : SpawnOutcome) (h : aliveCount s ≤ maxConc) :
    aliveCount (startSearch maxConc s sid dbp sp).2 ≤ maxConc := by
  unfold startSearch
  split_ifs with h1 h2
  · exact h
  · exact h
  · cases dbp with
    | none => exact h
    | some params =>
      cases sp with
      | fail msg => exact h
      | ok pid =>
        have hsm : startM
            { search_id := sid, params := params, process := none, running := false }
            (SpawnOutcome.ok pid) =
            ({ search_id := sid, params := params, process := some ⟨pid, true⟩,
               running := true }, [⟨"running", some pid⟩], Except.ok true) := rfl
        simp only [hsm]
        have hle := aliveCount_setEntry_le s sid
          { search_id := sid, params := params, process := some ⟨pid, true⟩, running := true }
        omega

/-- Equation: `stop_search` on an untracked id. -/
theorem stopSearch_none (s : MgrState) (sid : ℕ) (o : StopOutcome)
    (hf : s.find? (fun e => e.1 = sid) = none) :
    stopSearch s sid o = (Except.ok false, s, []) := by
  unfold stopSearch
  simp only [hf]

/-- Equation: `stop_search` when the handle's `stop` raises. -/
theorem stopSearch_err (s : MgrState) (sid : ℕ) (o : StopOutcome)
    (e : ℕ × SearchProcessM) (p1 : SearchProcessM) (upd : List StatusUpd) (msg : String)
    (hf : s.find? (fun e => e.1 = sid) = some e)
    (hst : stopM e.2 o = (p1, upd, Except.error msg)) :
    stopSearch s sid o = (Except.error msg, s, []) := by
  unfold stopSearch
  simp only [hf, hst]

/-- Equation: `stop_search` when the handle's `stop` returns. -/
theorem stopSearch_ok (s : MgrState) (sid : ℕ) (o : StopOutcome)
    (e : ℕ × SearchProcessM) (p1 : SearchProcessM) (upd : List StatusUpd) (b : Bool)
    (hf : s.find? (fun e => e.1 = sid) = some e)
    (hst : stopM e.2 o = (p1, upd, Except.ok b)) :
    stopSearch s sid o =
      if isAliveM p1 then (Except.ok b, setEntry s sid p1, [])
      else (Except.ok b, delEntry (setEntry s sid p1) sid, [(sid, p1)]) := by
  unfold stopSearch
  simp only [hf, hst]

theorem aliveCount_stopSearch_le (maxConc : ℕ) (s : MgrState) (sid : ℕ) (o : StopOutcome)
    (h : aliveCount s ≤ maxConc) : aliveCount (stopSearch s sid o).2.1 ≤ maxConc := by
  rcases hf : s.find? (fun e => e.1 = sid) with _ | e
  · rw [stopSearch_none s sid o hf]
    exact h
  · rcases hst : stopM e.2 o with ⟨p1, upd, res⟩
    cases res with
    | error msg =>
      rw [stopSearch_err s sid o e p1 upd msg hf hst]
      exact h
    | ok b =>
      rw [stopSearch_ok s sid o e p1 upd b hf hst]
      by_cases ha : isAliveM p1
      · simp only [if_pos ha]
        rcases stopM_ok_cases e.2 o p1 upd b hst with hunch | hdead
        · subst hunch
          rw [setEntry_self s sid e hf]
          exact h
        · rw [hdead] at ha
          simp at ha
      · simp only [if_neg ha]
        have hd := aliveCount_setEntry_dead s sid p1 (by simpa using ha)
        have he := aliveCount_delEntry_le (setEntry s sid p1) sid
        omega

theorem aliveCount_applyStep_le (maxConc : ℕ) (s : MgrState) (st : MStep)
    (h : aliveCount s ≤ maxConc) : aliveCount (applyStep maxConc s st) ≤ maxConc := by
  match st with
  | MStep.start sid dbp sp => exact aliveCount_startSearch_le maxConc s sid dbp sp h
  | MStep.stop sid o => exact aliveCount_stopSearch_le maxConc s sid o h
  | MStep.sweep => exact le_trans (aliveCount_filter_le s _) h
  | MStep.stopAll o => simp [applyStep, stopAllM, aliveCount]
  | MStep.die sid => exact le_trans (aliveCount_dieAt_le s sid) h

theorem aliveCount_runTrace_le (maxConc : ℕ) (tr : List MStep) :
    aliveCount (runTrace maxConc tr) ≤ maxConc := by
  rw [runTrace]
  have : ∀ s : MgrState, aliveCount s ≤ maxConc →
      aliveCount (tr.foldl (applyStep maxConc) s) ≤ maxConc := by
    induction tr with
    | nil => intro s hs; simpa using hs
    | cons st rest ih =>
      intro s hs
      simp only [List.foldl_cons]
      exact ih _ (aliveCount_applyStep_le maxConc s st hs)
  exact this [] (by simp [aliveCount])

/-! ### Claims -/

/-- C3 (counterexample): the claim asserts the `"secure-login.bank.tk"`
scenario "gains the +20 TLD bonus"; in the code the public-suffix stripping
removes `.tk` before scoring, so the normalized string `"secure-login.bank"`
does not end with `"tk"`: no TLD matches and the TLD contribution is 0. -/
theorem scenario_secure_login_no_tld_bonus :
    (classify tldStripModel scenarioRules "secure-login.bank.tk").matched_tld = none ∧
    tldScore scenarioRules "secure-login.bank" = 0 := by
  have hp : prepareDomain tldStripModel "secure-login.bank.tk" =
      some ("secure-login.bank.tk", "secure-login.bank", ["secure", "login", "bank"]) := by
    decide
  rw [classify_some _ _ _ _ _ _ hp, classifyPrepared_mtld]
  exact ⟨by decide, by decide⟩

/-- C3 (amended): with the scenario RuleSet, `"secure-login.bank.tk"` scores
+80 for the keyword "login", no hyphen bonus (one hyphen), a positive entropy
contribution, and no TLD bonus (the registered suffix `.tk` is stripped before
scoring, so `matched_tld` is none); the total is still ≥ 100, hence risk
`"critical"`. -/
theorem scenario_secure_login_bank_tk :
    100 ≤ (classify tldStripModel scenarioRules "secure-login.bank.tk").score ∧
    (classify tldStripModel scenarioRules "secure-login.bank.tk").risk = "critical" ∧
    (classify tldStripModel scenarioRules "secure-login.bank.tk").matched_keyword =
      some "login" ∧
    (classify tldStripModel scenarioRules "secure-login.bank.tk").matched_tld = none ∧
    0 < entropyScore "secure-login.bank" ∧
    kwScore scenarioRules "secure-login.bank" = 80 ∧
    hyphenScore "secure-login.bank" = 0 := by
  have hp : prepareDomain tldStripModel "secure-login.bank.tk" =
      some ("secure-login.bank.tk", "secure-login.bank", ["secure", "login", "bank"]) := by
    decide
  rw [classify_some _ _ _ _ _ _ hp]
  have hE := entropyScore_secure_ge
  have ht : tldScore scenarioRules "secure-login.bank" = 0 := by decide
  have hpre : prefixScore ["secure", "login", "bank"] = 0 := by decide
  have hkw : kwScore scenarioRules "secure-login.bank" = 80 := by decide
  have hfz : fuzzyScore scenarioRules ["secure", "login", "bank"] = 0 := by decide
  have hhy : hyphenScore "secure-login.bank" = 0 := by decide
  have hdot : dotScore "secure-login.bank" = 0 := by decide
  have hscore : 100 ≤ (classifyPrepared scenarioRules "secure-login.bank.tk"
      "secure-login.bank" ["secure", "login", "bank"]).score := by
    rw [classifyPrepared_score, ht, hpre, hkw, hfz, hhy, hdot]
    linarith
  refine ⟨hscore, ?_, ?_, ?_, ?_, hkw, hhy⟩
  · rw [classifyPrepared_risk]
    have hc : scenarioRules.thresholds.critical ≤ (classifyPrepared scenarioRules
        "secure-login.bank.tk" "secure-login.bank" ["secure", "login", "bank"]).score := by
      rw [show scenarioRules.thresholds.critical = 100 from rfl]
      exact hscore
    unfold labelScore
    rw [if_pos hc]
  · rw [classifyPrepared_mkw]
    decide
  · rw [classifyPrepared_mtld]
    decide
  · linarith

/-- C4: for every prepared domain, the classification score equals the sum of
the non-fuzzy contributions plus exactly 70 times the number of
(token, strong keyword) pairs at Levenshtein distance exactly 1 (tokens
excluding email/mail/cloud, strong keywords those of weight ≥ 70); pairs at
any other distance contribute nothing, and in particular two distance-1 pairs
add exactly +140. -/
theorem fuzzy_bonus_counts_distance_one_pairs (strip : String → Option String)
    (r : Rules) (d o n : String) (ws : List String)
    (hp : prepareDomain strip d = some (o, n, ws)) :
    (classify strip r d).score =
      (tldScore r n + entropyScore n + prefixScore ws + kwScore r n
        + hyphenScore n + dotScore n) + 70 * (nearMissPairs r ws : ℤ) ∧
    (70 : ℤ) * (nearMissPairs twoHitRules ["verifu", "logim"] : ℤ) = 140 := by
  constructor
  · rw [classify_some _ _ _ _ _ _ hp, classifyPrepared_score, fuzzyScore, levHits_length]
    ring
  · decide

/-- C4 witness: a concrete prepared domain instantiating the score equation. -/
theorem fuzzy_bonus_counts_distance_one_pairs_witness :
    prepareDomain noStrip "ab.cd" = some ("ab.cd", "ab.cd", ["ab", "cd"]) ∧
    ((classify noStrip emptyRules "ab.cd").score =
      (tldScore emptyRules "ab.cd" + entropyScore "ab.cd" + prefixScore ["ab", "cd"]
        + kwScore emptyRules "ab.cd" + hyphenScore "ab.cd" + dotScore "ab.cd")
        + 70 * (nearMissPairs emptyRules ["ab", "cd"] : ℤ) ∧
    (70 : ℤ) * (nearMissPairs twoHitRules ["verifu", "logim"] : ℤ) = 140) :=
  ⟨by decide, fuzzy_bonus_counts_distance_one_pairs noStrip emptyRules "ab.cd" "ab.cd"
    "ab.cd" ["ab", "cd"] (by decide)⟩

/-- C5 (counterexample): the claim rejects every input containing whitespace,
but the code checks only the space character: `"a\tb.com"` contains a tab yet
passes `_prepare_domain` and scores positively (its entropy is positive). -/
theorem tab_whitespace_not_rejected :
    "a\tb.com".data.contains '\t' = true ∧
    0 < (classify tldStripModel emptyRules "a\tb.com").score := by
  refine ⟨by decide, ?_⟩
  have hp : prepareDomain tldStripModel "a\tb.com" =
      some ("a\tb.com", "a\tb", ["a", "b"]) := by decide
  rw [classify_some _ _ _ _ _ _ hp, classifyPrepared_score]
  have hE := entropyScore_atb_ge
  have h1 : tldScore emptyRules "a\tb" = 0 := by decide
  have h2 : prefixScore ["a", "b"] = 0 := by decide
  have h3 : kwScore emptyRules "a\tb" = 0 := by decide
  have h4 : fuzzyScore emptyRules ["a", "b"] = 0 := by decide
  have h5 : hyphenScore "a\tb" = 0 := by decide
  have h6 : dotScore "a\tb" = 0 := by decide
  rw [h1, h2, h3, h4, h5, h6]
  linarith

/-- C5 (amended): every input that is empty, or whose candidate (after
trimming surrounding whitespace, lowercasing, and stripping a leading `*.`)
contains a space character or contains no dot, classifies to score 0, risk
"unknown", and no matched keyword or TLD. -/
theorem early_reject_gives_zero_unknown (strip : String → Option String) (r : Rules)
    (d : String) (h : earlyRejected d = true) :
    classify strip r d =
      { score := 0, risk := "unknown", matched_keyword := none, matched_tld := none } := by
  have hnone : prepareDomain strip d = none := by
    rw [earlyRejected] at h
    simp only [Bool.or_eq_true, Bool.not_eq_true'] at h
    simp only [prepareDomain]
    split_ifs with hd hcond hws
    · rfl
    · rfl
    · rfl
    · exfalso
      push_neg at hcond
      rcases h with (h1 | h2) | h3
      · exact hd h1
      · rw [hcond.1] at h2
        exact absurd h2 (by decide)
      · exact hcond.2 h3
  exact classify_none strip r d hnone

/-- C5 witness: the two spec scenarios, rejected with score 0 and risk
unknown. -/
theorem early_reject_gives_zero_unknown_witness :
    earlyRejected "not a domain" = true ∧
    classify tldStripModel emptyRules "not a domain" =
      { score := 0, risk := "unknown", matched_keyword := none, matched_tld := none } ∧
    earlyRejected "" = true ∧
    classify tldStripModel emptyRules "" =
      { score := 0, risk := "unknown", matched_keyword := none, matched_tld := none } :=
  ⟨by decide, early_reject_gives_zero_unknown tldStripModel emptyRules "not a domain"
      (by decide),
   by decide, early_reject_gives_zero_unknown tldStripModel emptyRules "" (by decide)⟩

/-- C9: the TLD bonus is applied at most once: when the RuleSet's ordered TLD
list splits as `l1 ++ t :: l2` with no member of `l1` a suffix of the
normalized string and `t` a suffix, the matched TLD is exactly `t` and the TLD
contribution to the score is exactly 20, regardless of how many entries of
`l2` also match. -/
theorem tld_bonus_first_match_only (strip : String → Option String) (r : Rules)
    (d o n : String) (ws : List String) (l1 l2 : List String) (t : String)
    (hp : prepareDomain strip d = some (o, n, ws))
    (htlds : r.tlds = l1 ++ t :: l2)
    (hmiss : l1.all (fun u => !(suffixB u.data n.data)) = true)
    (hhit : suffixB t.data n.data = true) :
    (classify strip r d).matched_tld = some t ∧
    tldScore r n = 20 ∧
    (classify strip r d).score = 20 + entropyScore n + prefixScore ws + kwScore r n
      + fuzzyScore r ws + hyphenScore n + dotScore n := by
  have hfind : tldOf r n = some t := by
    rw [tldOf, htlds]
    exact find?_first _ l1 l2 t hmiss hhit
  have hsc : tldScore r n = 20 := by
    rw [tldScore, hfind]
    rfl
  refine ⟨?_, hsc, ?_⟩
  · rw [classify_some _ _ _ _ _ _ hp, classifyPrepared_mtld, hfind]
  · rw [classify_some _ _ _ _ _ _ hp, classifyPrepared_score, hsc]

/-- C9 witness: TLD list `["net", "er", "r"]` against `"a.ter"`: both `"er"`
and `"r"` match as suffixes, but the matched TLD is the first configured
match `"er"` and the bonus is one single +20. -/
theorem tld_bonus_first_match_only_witness :
    prepareDomain noStrip "a.ter" = some ("a.ter", "a.ter", ["a", "ter"]) ∧
    multiTldRules.tlds = ["net"] ++ "er" :: ["r"] ∧
    (["net"].all (fun u => !(suffixB u.data "a.ter".data))) = true ∧
    suffixB "er".data "a.ter".data = true ∧
    ((classify noStrip multiTldRules "a.ter").matched_tld = some "er" ∧
     tldScore multiTldRules "a.ter" = 20 ∧
     (classify noStrip multiTldRules "a.ter").score = 20 + entropyScore "a.ter"
       + prefixScore ["a", "ter"] + kwScore multiTldRules "a.ter"
       + fuzzyScore multiTldRules ["a", "ter"] + hyphenScore "a.ter"
       + dotScore "a.ter") :=
  ⟨by decide, by decide, by decide, by decide,
   tld_bonus_first_match_only noStrip multiTldRules "a.ter" "a.ter" "a.ter" ["a", "ter"]
     ["net"] ["r"] "er" (by decide) (by decide) (by decide) (by decide)⟩

/-- C10: when no configured keyword is a substring of the normalized string
but the fuzzy hit list is non-empty, the reported matched keyword is the
target strong keyword of the first fuzzy hit — a keyword that is not a
substring of the domain at all. -/
theorem fuzzy_fallback_matched_keyword (strip : String → Option String) (r : Rules)
    (d o n : String) (ws : List String) (w t : String) (rest : List (String × String))
    (hp : prepareDomain strip d = some (o, n, ws))
    (hnosub : r.keywords.all (fun kw => !(subStr kw.1 n)) = true)
    (hhits : levHits r ws = (w, t) :: rest) :
    (classify strip r d).matched_keyword = some t ∧ subStr t n = false := by
  have hfilter : r.keywords.filter (fun kw => subStr kw.1 n) = [] := by
    rw [List.filter_eq_nil_iff]
    intro kw hkw
    have := List.all_eq_true.mp hnosub kw hkw
    simpa using this
  have hmsub : matchedKwSub r n = none := by
    rw [matchedKwSub, hfilter]
    rfl
  constructor
  · rw [classify_some _ _ _ _ _ _ hp, classifyPrepared_mkw, matchedKw, hmsub, hhits]
  · have hmem : (w, t) ∈ levHits r ws := by
      rw [hhits]
      simp
    rw [levHits] at hmem
    split_ifs at hmem with hs
    · simp at hmem
    · have ht := levHitsList_mem_right _ _ _ _ hmem
      rw [strongKeywords] at ht
      simp only [List.mem_map] at ht
      obtain ⟨kw, hkwmem, rfl⟩ := ht
      have hmem2 := List.mem_of_mem_filter hkwmem
      have hall := List.all_eq_true.mp hnosub _ hmem2
      simpa using hall

/-- C10 witness: rules with the single strong keyword "login" against
`"logim.x"`: "login" is not a substring, the token "logim" is at distance 1,
and the reported matched keyword is "login". -/
theorem fuzzy_fallback_matched_keyword_witness :
    prepareDomain noStrip "logim.x" = some ("logim.x", "logim.x", ["logim", "x"]) ∧
    (fuzzyRules.keywords.all (fun kw => !(subStr kw.1 "logim.x"))) = true ∧
    levHits fuzzyRules ["logim", "x"] = [("logim", "login")] ∧
    ((classify noStrip fuzzyRules "logim.x").matched_keyword = some "login" ∧
     subStr "login" "logim.x" = false) :=
  ⟨by decide, by decide, by decide,
   fuzzy_fallback_matched_keyword noStrip fuzzyRules "logim.x" "logim.x" "logim.x"
     ["logim", "x"] "logim" "login" [] (by decide) (by decide) (by decide)⟩

/-- C1 (counterexample): the claim quantifies over every RuleSet, but nothing
prevents a negative keyword weight, which drives the score below 0; and a
rejected input is labelled "unknown" without consulting the thresholds, so
with a nonpositive `low` threshold the score meets the `low` tier while the
risk is still "unknown". -/
theorem classify_negative_weight_breaks_claim :
    (classify tldStripModel negWeightRules "a.a").score < 0 ∧
    (classify tldStripModel lowZeroRules "nodot").risk = "unknown" ∧
    lowZeroRules.thresholds.low ≤ (classify tldStripModel lowZeroRules "nodot").score := by
  refine ⟨?_, ?_, ?_⟩
  · have hp : prepareDomain tldStripModel "a.a" = some ("a.a", "a.a", ["a", "a"]) := by
      decide
    rw [classify_some _ _ _ _ _ _ hp, classifyPrepared_score]
    have h1 : tldScore negWeightRules "a.a" = 0 := by decide
    have h2 : prefixScore ["a", "a"] = 0 := by decide
    have h3 : kwScore negWeightRules "a.a" = -1000000 := by decide
    have h4 : fuzzyScore negWeightRules ["a", "a"] = 0 := by decide
    have h5 : hyphenScore "a.a" = 0 := by decide
    have h6 : dotScore "a.a" = 0 := by decide
    have hE := entropyScore_aa_le
    rw [h1, h2, h3, h4, h5, h6]
    linarith
  · rw [classify_none _ _ _ (by decide : prepareDomain tldStripModel "nodot" = none)]
  · rw [classify_none _ _ _ (by decide : prepareDomain tldStripModel "nodot" = none)]
    decide

/-- C1 (amended): for every RuleSet whose keyword weights are all nonnegative,
every classified score is ≥ 0; for inputs passing preparation the risk label
is exactly the highest threshold tier whose threshold the score meets (a score
equal to a threshold counts as that tier, none met gives "unknown"); inputs
rejected by preparation get score 0 and risk "unknown" regardless of the
thresholds. -/
theorem classify_score_nonneg_risk_tiers (strip : String → Option String) (r : Rules)
    (d d' o n : String) (ws : List String)
    (hw : r.keywords.all (fun kw => (0 : ℤ) ≤ kw.2) = true)
    (hp : prepareDomain strip d = some (o, n, ws))
    (hp' : prepareDomain strip d' = none) :
    0 ≤ (classify strip r d).score ∧
    ((classify strip r d).risk = "critical" ↔
      r.thresholds.critical ≤ (classify strip r d).score) ∧
    ((classify strip r d).risk = "high" ↔
      r.thresholds.high ≤ (classify strip r d).score ∧
        (classify strip r d).score < r.thresholds.critical) ∧
    ((classify strip r d).risk = "medium" ↔
      r.thresholds.medium ≤ (classify strip r d).score ∧
        (classify strip r d).score < r.thresholds.critical ∧
        (classify strip r d).score < r.thresholds.high) ∧
    ((classify strip r d).risk = "low" ↔
      r.thresholds.low ≤ (classify strip r d).score ∧
        (classify strip r d).score < r.thresholds.critical ∧
        (classify strip r d).score < r.thresholds.high ∧
        (classify strip r d).score < r.thresholds.medium) ∧
    ((classify strip r d).risk = "unknown" ↔
      (classify strip r d).score < r.thresholds.critical ∧
        (classify strip r d).score < r.thresholds.high ∧
        (classify strip r d).score < r.thresholds.medium ∧
        (classify strip r d).score < r.thresholds.low) ∧
    (classify strip r d').score = 0 ∧ (classify strip r d').risk = "unknown" := by
  rw [classify_some _ _ _ _ _ _ hp, classify_none _ _ _ hp']
  have hw' : ∀ kw ∈ r.keywords, (0 : ℤ) ≤ kw.2 := by
    intro kw hkw
    have := List.all_eq_true.mp hw kw hkw
    simpa using this
  obtain ⟨i1, i2, i3, i4, i5⟩ :=
    labelScore_iffs (classifyPrepared r o n ws).score r.thresholds
  rw [classifyPrepared_risk]
  exact ⟨classifyPrepared_score_nonneg r o n ws hw', i1, i2, i3, i4, i5, rfl, rfl⟩

/-- C1 witness: empty RuleSet against `"ab.tk"` (prepared) and `"nodot"`
(rejected). -/
theorem classify_score_nonneg_risk_tiers_witness :
    emptyRules.keywords.all (fun kw => (0 : ℤ) ≤ kw.2) = true ∧
    prepareDomain tldStripModel "ab.tk" = some ("ab.tk", "ab", ["ab"]) ∧
    prepareDomain tldStripModel "nodot" = none ∧
    (0 ≤ (classify tldStripModel emptyRules "ab.tk").score ∧
    ((classify tldStripModel emptyRules "ab.tk").risk = "critical" ↔
      emptyRules.thresholds.critical ≤ (classify tldStripModel emptyRules "ab.tk").score) ∧
    ((classify tldStripModel emptyRules "ab.tk").risk = "high" ↔
      emptyRules.thresholds.high ≤ (classify tldStripModel emptyRules "ab.tk").score ∧
        (classify tldStripModel emptyRules "ab.tk").score < emptyRules.thresholds.critical) ∧
    ((classify tldStripModel emptyRules "ab.tk").risk = "medium" ↔
      emptyRules.thresholds.medium ≤ (classify tldStripModel emptyRules "ab.tk").score ∧
        (classify tldStripModel emptyRules "ab.tk").score < emptyRules.thresholds.critical ∧
        (classify tldStripModel emptyRules "ab.tk").score < emptyRules.thresholds.high) ∧
    ((classify tldStripModel emptyRules "ab.tk").risk = "low" ↔
      emptyRules.thresholds.low ≤ (classify tldStripModel emptyRules "ab.tk").score ∧
        (classify tldStripModel emptyRules "ab.tk").score < emptyRules.thresholds.critical ∧
        (classify tldStripModel emptyRules "ab.tk").score < emptyRules.thresholds.high ∧
        (classify tldStripModel emptyRules "ab.tk").score < emptyRules.thresholds.medium) ∧
    ((classify tldStripModel emptyRules "ab.tk").risk = "unknown" ↔
      (classify tldStripModel emptyRules "ab.tk").score < emptyRules.thresholds.critical ∧
        (classify tldStripModel emptyRules "ab.tk").score < emptyRules.thresholds.high ∧
        (classify tldStripModel emptyRules "ab.tk").score < emptyRules.thresholds.medium ∧
        (classify tldStripModel emptyRules "ab.tk").score < emptyRules.thresholds.low) ∧
    (classify tldStripModel emptyRules "nodot").score = 0 ∧
    (classify tldStripModel emptyRules "nodot").risk = "unknown") :=
  ⟨by decide, by decide, by decide,
   classify_score_nonneg_risk_tiers tldStripModel emptyRules "ab.tk" "nodot" "ab.tk" "ab"
     ["ab"] (by decide) (by decide) (by decide)⟩

/-- C2 (counterexample): a start call for an id that is already tracked and
alive, issued while the registry holds K or more alive entries, returns the
already-running result `False` rather than failing with the capacity error. -/
theorem start_already_alive_not_capacity_error :
    1 ≤ aliveCount [(1, aliveHandle)] ∧
    startSearch 1 [(1, aliveHandle)] 1 none (SpawnOutcome.fail "boom") =
      (StartRes.started false, [(1, aliveHandle)]) ∧
    StartRes.started false ≠ StartRes.errCapacity := by decide

/-- C2 (amended): a start call for an id that is not currently tracked as
alive, finding K or more alive tracked entries, fails with the capacity error
and leaves the registry unchanged (a start for an already-alive id instead
returns the already-running no-op result without inserting); and over every
sequence of supervisor steps from the empty registry — the lock serializes
them, and `start` reads the alive count and inserts under one acquisition —
the number of alive tracked entries never exceeds K. -/
theorem start_capacity_and_ceiling_invariant (maxConc : ℕ) (s : MgrState) (sid : ℕ)
    (dbp : Option LaunchParams) (sp : SpawnOutcome) (tr : List MStep)
    (h1 : aliveInRegistry s sid = false) (h2 : maxConc ≤ aliveCount s) :
    startSearch maxConc s sid dbp sp = (StartRes.errCapacity, s) ∧
    aliveCount (runTrace maxConc tr) ≤ maxConc := by
  constructor
  · unfold startSearch
    simp only [h1, Bool.false_eq_true, if_false, if_pos h2]
  · exact aliveCount_runTrace_le maxConc tr

/-- C2 witness: ceiling 1, one alive entry, a start for the fresh id 2 fails
with the capacity error; and a concrete trace stays within the ceiling. -/
theorem start_capacity_and_ceiling_invariant_witness :
    aliveInRegistry [(1, aliveHandle)] 2 = false ∧
    1 ≤ aliveCount [(1, aliveHandle)] ∧
    (startSearch 1 [(1, aliveHandle)] 2 none (SpawnOutcome.fail "boom") =
      (StartRes.errCapacity, [(1, aliveHandle)]) ∧
     aliveCount (runTrace 1
       [MStep.start 1 (some demoParams) (SpawnOutcome.ok 5), MStep.die 1]) ≤ 1) :=
  ⟨by decide, by decide,
   start_capacity_and_ceiling_invariant 1 [(1, aliveHandle)] 2 none
     (SpawnOutcome.fail "boom")
     [MStep.start 1 (some demoParams) (SpawnOutcome.ok 5), MStep.die 1]
     (by decide) (by decide)⟩

/-- C6: when a line passes the reader's filters and the classifier call
raises, the reader logs the error, still delivers the line to the persistence
collaborator with a null classification (null score, risk, matched keyword,
matched TLD and record), and continues with the remaining lines. -/
theorem reader_classify_error_still_delivers (sid : ℕ)
    (cls : String → Except String Classification) (line : String) (rest : List String)
    (msg : String) (h1 : lineAccepted line = true)
    (h2 : cls (trimStr line) = Except.error msg) :
    readOutput sid cls (line :: rest) =
      REvent.classifyError (trimStr line) msg ::
        REvent.saved sid (trimStr line) none none none none none ::
          readOutput sid cls rest := by
  rw [lineAccepted] at h1
  simp only [Bool.and_eq_true, Bool.not_eq_true'] at h1
  obtain ⟨⟨⟨he, hskip⟩, hdot⟩, hsp⟩ := h1
  simp only [readOutput]
  rw [if_neg (by simp [he]), if_neg (by simp [hskip]),
    if_neg (by
      intro hcontra
      rcases hcontra with hna | hb
      · exact hna hdot
      · rw [hsp] at hb
        exact absurd hb (by decide)),
    h2]

/-- C6 witness: the valid line `"a.com"` with an always-raising classifier. -/
theorem reader_classify_error_still_delivers_witness :
    lineAccepted "a.com" = true ∧
    boomClassifier (trimStr "a.com") = Except.error "boom" ∧
    readOutput 7 boomClassifier ["a.com"] =
      REvent.classifyError (trimStr "a.com") "boom" ::
        REvent.saved 7 (trimStr "a.com") none none none none none ::
          readOutput 7 boomClassifier [] :=
  ⟨by decide, rfl,
   reader_classify_error_still_delivers 7 boomClassifier "a.com" [] "boom"
     (by decide) rfl⟩

/-- C7 (counterexample): the claim says every operation that deletes an entry
observes the process dead first; but `stop_all` clears the whole registry
unconditionally after best-effort stops, so when a handle's `stop()` raises,
its still-alive entry is removed anyway. -/
theorem stop_all_removes_alive_entry :
    isAliveM aliveHandle = true ∧
    (stopAllM [(1, aliveHandle)] (fun _ => StopOutcome.osError "eperm")).2 =
      [(1, aliveHandle)] ∧
    (stopAllM [(1, aliveHandle)] (fun _ => StopOutcome.osError "eperm")).1 = [] := by
  decide

/-- C7 (amended): `stop` and the dead-process sweep remove an entry only after
observing its process not alive, while `stop_all` empties the registry
unconditionally after best-effort stops (a failed stop can remove a
still-alive entry). -/
theorem removals_observed_dead_except_stop_all (s : MgrState) (sid i j : ℕ)
    (o : StopOutcome) (oall : ℕ → StopOutcome) (ph qh : SearchProcessM)
    (h1 : (i, ph) ∈ (stopSearch s sid o).2.2)
    (h2 : (j, qh) ∈ (cleanupDead s).2) :
    isAliveM ph = false ∧ isAliveM qh = false ∧ (stopAllM s oall).1 = [] := by
  refine ⟨?_, ?_, rfl⟩
  · rcases hf : s.find? (fun e => e.1 = sid) with _ | e
    · rw [stopSearch_none s sid o hf] at h1
      simp at h1
    · rcases hst : stopM e.2 o with ⟨p1, upd, res⟩
      cases res with
      | error msg =>
        rw [stopSearch_err s sid o e p1 upd msg hf hst] at h1
        simp at h1
      | ok b =>
        rw [stopSearch_ok s sid o e p1 upd b hf hst] at h1
        split_ifs at h1 with ha
        · simp at h1
        · simp only [List.mem_singleton, Prod.mk.injEq] at h1
          obtain ⟨hi, hph⟩ := h1
          subst hph
          simpa using ha
  · have h2' : (j, qh) ∈ s.filter (fun e => ¬ (isAliveM e.2 = true)) := h2
    have := List.of_mem_filter h2'
    simpa using this

/-- C7 witness: stopping the alive id 2 evicts it only once dead, the sweep
evicts the dead id 1, and `stop_all` empties the registry. -/
theorem removals_observed_dead_except_stop_all_witness :
    ((2 : ℕ), (⟨2, demoParams, some ⟨200, false⟩, false⟩ : SearchProcessM)) ∈
      (stopSearch [(1, deadHandle), (2, aliveHandle2)] 2 StopOutcome.graceful).2.2 ∧
    ((1 : ℕ), deadHandle) ∈ (cleanupDead [(1, deadHandle), (2, aliveHandle2)]).2 ∧
    (isAliveM ⟨2, demoParams, some ⟨200, false⟩, false⟩ = false ∧
     isAliveM deadHandle = false ∧
     (stopAllM [(1, deadHandle), (2, aliveHandle2)] (fun _ => StopOutcome.graceful)).1 =
       []) :=
  ⟨by decide, by decide,
   removals_observed_dead_except_stop_all [(1, deadHandle), (2, aliveHandle2)] 2 2 1
     StopOutcome.graceful (fun _ => StopOutcome.graceful)
     ⟨2, demoParams, some ⟨200, false⟩, false⟩ deadHandle (by decide) (by decide)⟩

/-- C8: `start()` on an already-running managed process returns the
already-running report (`False`), leaves the handle — including its launch
parameters and spawned process — unchanged, and emits no status update. -/
theorem managed_start_already_running_noop (p : SearchProcessM) (sp : SpawnOutcome)
    (h : p.running = true) :
    startM p sp = (p, [], Except.ok false) := by
  unfold startM
  rw [if_pos h]

/-- C8 witness: a running handle. -/
theorem managed_start_already_running_noop_witness :
    aliveHandle.running = true ∧
    startM aliveHandle (SpawnOutcome.ok 7) = (aliveHandle, [], Except.ok false) :=
  ⟨by decide, managed_start_already_running_noop aliveHandle (SpawnOutcome.ok 7)
    (by decide)⟩

end CertPatrol
